import Mathlib

/-!
Verification of the parts-catalog mapping and reconciliation engine
(functions `build_df_mapped` and `compare_and_build_exports` of `app.py`),
shallowly embedded over an explicit tabular data model.

Tables are ordered column-name lists together with rows of cells; cells are
untyped text except for the literal integer 1 written into the
RecordStatusId column of the new-items table.  Numeric price comparison
models `to_num` (comma-stripping, trimming, null sentinels, decimal
parsing with coercion to null on failure) over `Option Rat`, with the
pandas rule that a null compares unequal to everything, itself included.
-/

/-- A spreadsheet cell: text, or an integer literal (the engine only ever
produces the integer 1, for the RecordStatusId column of new items). -/
inductive Cell where
  | str : String → Cell
  | nat : Nat → Cell
deriving DecidableEq, Repr

/-- A row is the list of its cells, aligned with the column-name list. -/
abbrev Row := List Cell

/-- A tabular dataset: ordered column names plus rows of cells. -/
structure Table where
  cols : List String
  rows : List Row
deriving DecidableEq, Repr

/-- `astype(str)`: the textual content of a cell. -/
def Cell.toText : Cell → String
  | .str s => s
  | .nat n => toString n

/-- Python whitespace characters stripped by `str.strip()`. -/
def isWs (c : Char) : Bool :=
  c = ' ' || c = '\t' || c = '\n' || c = '\r' || c = '\x0b' || c = '\x0c'

/-- Strip leading and trailing whitespace from a character list. -/
def stripList (l : List Char) : List Char :=
  ((l.dropWhile isWs).reverse.dropWhile isWs).reverse

/-- Python `str.strip()`: remove leading and trailing whitespace. -/
def pyStrip (s : String) : String :=
  String.mk (stripList s.data)

/-- `str.replace(",", "")`: remove every comma. -/
def stripCommas (s : String) : String :=
  String.mk (s.data.filter (fun c => c ≠ ','))

/-- Value of a digit run, most significant first. -/
def digitsToNat (ds : List Char) : Nat :=
  ds.foldl (fun a c => a * 10 + (c.toNat - 48)) 0

/-- Parse the exponent tail of a decimal literal: optional sign, then a
nonempty digit run that must end the input. -/
def parseExpDigits (cs : List Char) : Option Int :=
  let sgn : Int := match cs with
    | '-' :: _ => -1
    | _ => 1
  let cs1 : List Char := match cs with
    | '+' :: t => t
    | '-' :: t => t
    | _ => cs
  let ds := cs1.takeWhile Char.isDigit
  let rest := cs1.dropWhile Char.isDigit
  if ds.isEmpty || !rest.isEmpty then none
  else some (sgn * (digitsToNat ds : Int))

/-- The rational `num / (den * 10 ^ -e)` or `(num * 10 ^ e) / den`: a
mantissa fraction scaled by a signed power of ten. -/
def applyExp10 (num : Int) (den : Nat) (e : Int) : Rat :=
  if 0 ≤ e then mkRat (num * (10 : Int) ^ e.toNat) den
  else mkRat num (den * 10 ^ (-e).toNat)

/-- Standard decimal parsing as performed by `pd.to_numeric` on a cleaned
string: optional sign, integer digits and/or a fractional part, optional
exponent.  Anything else fails. -/
def parseDecimal (s : String) : Option Rat :=
  let cs := s.data
  let sgn : Int := match cs with
    | '-' :: _ => -1
    | _ => 1
  let cs1 : List Char := match cs with
    | '+' :: t => t
    | '-' :: t => t
    | _ => cs
  let ip := cs1.takeWhile Char.isDigit
  let r1 := cs1.dropWhile Char.isDigit
  let hasDot : Bool := match r1 with
    | '.' :: _ => true
    | _ => false
  let fp : List Char := match r1 with
    | '.' :: t => t.takeWhile Char.isDigit
    | _ => []
  let r2 : List Char := match r1 with
    | '.' :: t => t.dropWhile Char.isDigit
    | _ => r1
  if ip.isEmpty && (!hasDot || fp.isEmpty) then none
  else
    let num : Int := sgn * ((digitsToNat ip * 10 ^ fp.length + digitsToNat fp : Nat) : Int)
    let den : Nat := 10 ^ fp.length
    match r2 with
    | [] => some (mkRat num den)
    | 'e' :: t => (parseExpDigits t).map (applyExp10 num den)
    | 'E' :: t => (parseExpDigits t).map (applyExp10 num den)
    | _ => none

/-- `to_num` of `app.py`: strip commas and whitespace, send the empty
string and the literals "nan" and "None" to null, then parse, coercing
failures to null. -/
def to_num (s : String) : Option Rat :=
  let t := pyStrip (stripCommas s)
  if t = "" || t = "nan" || t = "None" then none
  else parseDecimal t

/-- The pandas `Series.ne` test on two parsed prices: a null (NaN) compares
unequal to every value and to another null. -/
def numNe : Option Rat → Option Rat → Bool
  | some a, some b => a != b
  | _, _ => true

/-- Index of the first column with the given name, if any. -/
def colIdx : List String → String → Option Nat
  | [], _ => none
  | c :: cs, col => if c = col then some 0 else (colIdx cs col).map (· + 1)

/-- The cell of a row under a named column (empty text when absent). -/
def getCell (cols : List String) (r : Row) (col : String) : Cell :=
  match colIdx cols col with
  | some i => r.getD i (Cell.str "")
  | none => Cell.str ""

/-- Overwrite the cell of a row under a named column (no-op when absent). -/
def setCell (cols : List String) (r : Row) (col : String) (v : Cell) : Row :=
  match colIdx cols col with
  | some i => r.set i v
  | none => r

/-- The key of a row: the text of its ItemCode cell. -/
def keyOf (cols : List String) (r : Row) : String :=
  (getCell cols r "ItemCode").toText

/-- `normalize_itemcode` on one row: replace the ItemCode cell by the
stripped text of its content. -/
def normCode (cols : List String) (r : Row) : Row :=
  setCell cols r "ItemCode" (.str (pyStrip (getCell cols r "ItemCode").toText))

/-- The rows of a table with ItemCode normalized. -/
def normRows (t : Table) : List Row :=
  t.rows.map (normCode t.cols)

/-- `drop_duplicates(subset=["ItemCode"], keep="last")`: keep a row only
when no later row shares its key. -/
def dedupKeepLast (cols : List String) : List Row → List Row
  | [] => []
  | r :: rest =>
    if rest.any (fun r2 => keyOf cols r2 == keyOf cols r) then dedupKeepLast cols rest
    else r :: dedupKeepLast cols rest

/-- `.loc[k]` on a key-indexed frame: the first (hence, after dedup, the
only) row with the given key. -/
def lookupRow (cols : List String) (rows : List Row) (k : String) : Option Row :=
  rows.find? (fun r => keyOf cols r == k)

/-- The fixed standardized schema (`STANDARD_HEADERS` of `app.py`). -/
def STANDARD_HEADERS : List String :=
  ["Supplier", "ItemCode", "Description", "PurchasePrice", "SalesPrice",
   "SV_ManufacturerId", "ListCategory", "MarinaLocationId", "AdditionDatetime"]

/-- The fixed new-items schema built by `compare_and_build_exports`. -/
def NEW_ITEM_HEADERS : List String :=
  ["Id", "Supplier", "ItemCode", "Description", "PurchasePrice", "SalesPrice",
   "SV_ManufacturerId", "ListCategory", "RecordStatusId", "MarinaLocationId",
   "AdditionDatetime", "ItemMaster_Id", "AspNetUser_Id", "SupersededItemCode"]

/-- The three catalog columns required by `compare_and_build_exports`. -/
def requiredCatalogCols : List String :=
  ["ItemCode", "PurchasePrice", "SalesPrice"]

/-- One standardized row of `build_df_mapped`: mapped fields copy the
named source cell verbatim, unmapped fields are empty text, and the two
scalar fields broadcast their parameters. -/
def mappedRowOf (srcCols : List String) (mapping : String → Option String)
    (marinaLocationId additionDt : String) (r : Row) : Row :=
  STANDARD_HEADERS.map (fun field =>
    if field = "MarinaLocationId" then .str marinaLocationId
    else if field = "AdditionDatetime" then .str additionDt
    else match mapping field with
      | some srcCol => getCell srcCols r srcCol
      | none => .str "")

/-- The assembled standardized rows of `build_df_mapped` before dedup:
projected into the standard schema, ItemCode normalized, blank keys
dropped. -/
def assembledRows (src : Table) (mapping : String → Option String)
    (marinaLocationId additionDt : String) : List Row :=
  ((src.rows.map (mappedRowOf src.cols mapping marinaLocationId additionDt)).map
      (normCode STANDARD_HEADERS)).filter
    (fun r => keyOf STANDARD_HEADERS r != "")

/-- `build_df_mapped` of `app.py`. -/
def build_df_mapped (src : Table) (mapping : String → Option String)
    (marinaLocationId additionDt : String) : Table :=
  ⟨STANDARD_HEADERS,
   dedupKeepLast STANDARD_HEADERS (assembledRows src mapping marinaLocationId additionDt)⟩

/-- The required catalog columns that are missing. -/
def catalogMissing (c : Table) : List String :=
  requiredCatalogCols.filter (fun col => ! c.cols.contains col)

/-- The key-indexed catalog lookup: normalized rows deduplicated keeping
the last occurrence per key. -/
def lookupOf (t : Table) : List Row :=
  dedupKeepLast t.cols (normRows t)

/-- The keys of a table's lookup view, in lookup order. -/
def keysOf (t : Table) : List String :=
  (lookupOf t).map (keyOf t.cols)

/-- `both_codes`: catalog keys also present in the standardized table,
in catalog order (`Index.intersection` with `sort=False`). -/
def bothCodes (m c : Table) : List String :=
  (keysOf c).filter (fun k => (keysOf m).contains k)

/-- `new_codes`: standardized keys absent from the catalog, in
standardized order (`Index.difference` with `sort=False`). -/
def newCodes (m c : Table) : List String :=
  (keysOf m).filter (fun k => ! (keysOf c).contains k)

/-- The `Series.ne` test of one price column between a catalog lookup row
and a standardized lookup row. -/
def priceNe (m c : Table) (cr mr : Row) (col : String) : Bool :=
  numNe (to_num (getCell c.cols cr col).toText) (to_num (getCell m.cols mr col).toText)

/-- `needs_update` at one key: the parsed purchase prices differ or the
parsed sales prices differ. -/
def needsUpdate (m c : Table) (k : String) : Bool :=
  match lookupRow c.cols (lookupOf c) k, lookupRow m.cols (lookupOf m) k with
  | some cr, some mr => priceNe m c cr mr "PurchasePrice" || priceNe m c cr mr "SalesPrice"
  | _, _ => false

/-- `codes_to_update`: the keys in both tables whose prices differ. -/
def codesToUpdate (m c : Table) : List String :=
  (bothCodes m c).filter (needsUpdate m c)

/-- The label-aligned `.loc` assignment on one catalog row: every row whose
key is flagged gets the standardized row's raw PurchasePrice and
SalesPrice cells. -/
def updateRow (m c : Table) (r : Row) : Row :=
  if (codesToUpdate m c).contains (keyOf c.cols r) then
    match lookupRow m.cols (lookupOf m) (keyOf c.cols r) with
    | some mr =>
      setCell c.cols
        (setCell c.cols r "PurchasePrice" (getCell m.cols mr "PurchasePrice"))
        "SalesPrice" (getCell m.cols mr "SalesPrice")
    | none => r
  else r

/-- The catalog rows after the price update (performed only when some key
is flagged, exactly as the source guards the assignment). -/
def updatedRows (m c : Table) : List Row :=
  if (codesToUpdate m c).isEmpty then normRows c
  else (normRows c).map (updateRow m c)

/-- `reindex(columns=order)` on one row. -/
def reindexRow (cols : List String) (order : List String) (r : Row) : Row :=
  order.map (fun col => getCell cols r col)

/-- `reindex(columns=order)` on a table. -/
def Table.reindexCols (t : Table) (order : List String) : Table :=
  ⟨order, t.rows.map (reindexRow t.cols order)⟩

/-- The updated catalog: normalized rows, prices overwritten at flagged
keys, columns restored to the recorded original order. -/
def updatedCatalog (m c : Table) : Table :=
  (Table.mk c.cols (updatedRows m c)).reindexCols c.cols

/-- The standardized lookup rows whose key is new. -/
def newItemRows (m c : Table) : List Row :=
  (lookupOf m).filter (fun r => (newCodes m c).contains (keyOf m.cols r))

/-- One cell of the new-items sheet: fixed literals at Id, RecordStatusId
and the three NULL-sentinel columns, otherwise the standardized cell
(empty when the standardized table lacks the column, as `df.get`). -/
def newItemCell (mcols : List String) (r : Row) (col : String) : Cell :=
  if col = "Id" then .str "*"
  else if col = "RecordStatusId" then .nat 1
  else if col = "ItemMaster_Id" ∨ col = "AspNetUser_Id" ∨ col = "SupersededItemCode" then
    .str "NULL"
  else getCell mcols r col

/-- The new-items table: a bare empty frame when no key is new, otherwise
one 14-column row per new key. -/
def newItemsTable (m c : Table) : Table :=
  if (newCodes m c).isEmpty then ⟨[], []⟩
  else ⟨NEW_ITEM_HEADERS,
        (newItemRows m c).map (fun r => NEW_ITEM_HEADERS.map (newItemCell m.cols r))⟩

/-- The message of the schema failure, naming the missing columns. -/
def schemaErrorMsg (missing : List String) : String :=
  "Marina catalog must contain columns: ItemCode, PurchasePrice, SalesPrice. Missing: "
    ++ String.intercalate ", " missing

/-- `compare_and_build_exports` of `app.py`.  The first error branch is the
explicit required-column check of the source; the other two model the
KeyError raised when the standardized table lacks ItemCode (its
normalization is unconditional) or lacks a price column while some key is
present in both tables (the `.loc` reads run exactly then). -/
def compare_and_build_exports (df_mapped df_catalog : Table) :
    Except String (Table × Table × Nat × Nat) :=
  if (catalogMissing df_catalog).isEmpty then
    if df_mapped.cols.contains "ItemCode" then
      if (bothCodes df_mapped df_catalog).isEmpty = false ∧
          (df_mapped.cols.contains "PurchasePrice" = false ∨
           df_mapped.cols.contains "SalesPrice" = false) then
        .error "KeyError: price column"
      else
        .ok (updatedCatalog df_mapped df_catalog, newItemsTable df_mapped df_catalog,
             (codesToUpdate df_mapped df_catalog).length, (newCodes df_mapped df_catalog).length)
    else .error "KeyError: ItemCode"
  else .error (schemaErrorMsg (catalogMissing df_catalog))

/-- A table is rectangular: every row has one cell per column. -/
def Table.Rect (t : Table) : Prop :=
  ∀ r ∈ t.rows, r.length = t.cols.length

instance (t : Table) : Decidable t.Rect :=
  inferInstanceAs (Decidable (∀ r ∈ t.rows, r.length = t.cols.length))

instance {ε α : Type} [DecidableEq ε] [DecidableEq α] : DecidableEq (Except ε α) :=
  fun x y =>
    match x, y with
    | .error a, .error b =>
      if h : a = b then isTrue (by rw [h]) else
        isFalse (by intro he; injection he; exact h (by assumption))
    | .ok a, .ok b =>
      if h : a = b then isTrue (by rw [h]) else
        isFalse (by intro he; injection he; exact h (by assumption))
    | .error a, .ok b => isFalse (fun he => Except.noConfusion he)
    | .ok a, .error b => isFalse (fun he => Except.noConfusion he)

def mW1 : Table := ⟨STANDARD_HEADERS, []⟩

def cW1 : Table := ⟨["Notes", "ItemCode", "PurchasePrice", "SalesPrice"], []⟩

def mW8 : Table := ⟨STANDARD_HEADERS, []⟩

def cW8 : Table := ⟨["ItemCode"], []⟩

def mW4 : Table := ⟨STANDARD_HEADERS, []⟩

def cW4 : Table :=
  ⟨["ItemCode", "PurchasePrice", "SalesPrice"],
   [[Cell.str "X", Cell.str "1", Cell.str "2"]]⟩

def mX4 : Table := ⟨STANDARD_HEADERS, []⟩

def cX4 : Table :=
  ⟨["ItemCode", "PurchasePrice", "SalesPrice"],
   [[Cell.str " X ", Cell.str "1", Cell.str "2"]]⟩

def mW3 : Table :=
  ⟨STANDARD_HEADERS,
   [[Cell.str "", Cell.str "A1", Cell.str "", Cell.str "10", Cell.str "25",
     Cell.str "", Cell.str "", Cell.str "", Cell.str ""]]⟩

def cW3 : Table :=
  ⟨["ItemCode", "PurchasePrice", "SalesPrice", "Notes"],
   [[Cell.str "A1", Cell.str "10", Cell.str "20", Cell.str "keep"]]⟩

def uW3 : Table :=
  ⟨["ItemCode", "PurchasePrice", "SalesPrice", "Notes"],
   [[Cell.str "A1", Cell.str "10", Cell.str "25", Cell.str "keep"]]⟩

def mrW3 : Row :=
  [Cell.str "", Cell.str "A1", Cell.str "", Cell.str "10", Cell.str "25",
   Cell.str "", Cell.str "", Cell.str "", Cell.str ""]

def mX3 : Table :=
  ⟨STANDARD_HEADERS,
   [[Cell.str "", Cell.str "A1", Cell.str "", Cell.str "10", Cell.str "25",
     Cell.str "", Cell.str "", Cell.str "", Cell.str ""]]⟩

def cX3 : Table :=
  ⟨["ItemCode", "PurchasePrice", "SalesPrice", "Notes"],
   [[Cell.str " A1 ", Cell.str "10", Cell.str "20", Cell.str "keep"]]⟩

def mW10 : Table :=
  ⟨STANDARD_HEADERS,
   [[Cell.str "", Cell.str "D", Cell.str "", Cell.str "3", Cell.str "5",
     Cell.str "", Cell.str "", Cell.str "", Cell.str ""]]⟩

def cW10 : Table :=
  ⟨["ItemCode", "PurchasePrice", "SalesPrice"],
   [[Cell.str "D", Cell.str "1", Cell.str "5"],
    [Cell.str "D", Cell.str "2", Cell.str "5"]]⟩

def uW10 : Table :=
  ⟨["ItemCode", "PurchasePrice", "SalesPrice"],
   [[Cell.str "D", Cell.str "3", Cell.str "5"],
    [Cell.str "D", Cell.str "3", Cell.str "5"]]⟩

def mrW10 : Row :=
  [Cell.str "", Cell.str "D", Cell.str "", Cell.str "3", Cell.str "5",
   Cell.str "", Cell.str "", Cell.str "", Cell.str ""]

def mW5 : Table :=
  ⟨STANDARD_HEADERS,
   [[Cell.str "", Cell.str "E", Cell.str "", Cell.str "5", Cell.str "6",
     Cell.str "", Cell.str "", Cell.str "", Cell.str ""]]⟩

def cW5 : Table :=
  ⟨["ItemCode", "PurchasePrice", "SalesPrice"],
   [[Cell.str "E", Cell.str "abc", Cell.str "6"]]⟩

def crW5 : Row := [Cell.str "E", Cell.str "abc", Cell.str "6"]

def mrW5 : Row :=
  [Cell.str "", Cell.str "E", Cell.str "", Cell.str "5", Cell.str "6",
   Cell.str "", Cell.str "", Cell.str "", Cell.str ""]

def srcW7 : Table :=
  ⟨["code", "desc"],
   [[Cell.str " K ", Cell.str "first"],
    [Cell.str "K", Cell.str "second"],
    [Cell.str "L", Cell.str "only"]]⟩

def mapW7 : String → Option String := fun f =>
  if f = "ItemCode" then some "code"
  else if f = "Description" then some "desc"
  else none

def mW6 : Table :=
  ⟨STANDARD_HEADERS,
   [[Cell.str "", Cell.str "N", Cell.str "", Cell.str "1", Cell.str "2",
     Cell.str "", Cell.str "", Cell.str "", Cell.str ""]]⟩

def cW6 : Table := ⟨["ItemCode", "PurchasePrice", "SalesPrice"], []⟩

def nW6 : Table :=
  ⟨NEW_ITEM_HEADERS,
   [[Cell.str "*", Cell.str "", Cell.str "N", Cell.str "", Cell.str "1",
     Cell.str "2", Cell.str "", Cell.str "", Cell.nat 1, Cell.str "",
     Cell.str "", Cell.str "NULL", Cell.str "NULL", Cell.str "NULL"]]⟩

def rW6 : Row :=
  [Cell.str "*", Cell.str "", Cell.str "N", Cell.str "", Cell.str "1",
   Cell.str "2", Cell.str "", Cell.str "", Cell.nat 1, Cell.str "",
   Cell.str "", Cell.str "NULL", Cell.str "NULL", Cell.str "NULL"]

def mX6 : Table := ⟨STANDARD_HEADERS, []⟩

def cX6 : Table := ⟨["ItemCode", "PurchasePrice", "SalesPrice"], []⟩

/-- Every key flagged for update has standardized PurchasePrice and
SalesPrice text that parses to a number. -/
def mappedPricesParse (m c : Table) : Bool :=
  (codesToUpdate m c).all (fun k =>
    match lookupRow m.cols (lookupOf m) k with
    | some mr =>
      (to_num (getCell m.cols mr "PurchasePrice").toText).isSome &&
      (to_num (getCell m.cols mr "SalesPrice").toText).isSome
    | none => true)

def mW2 : Table :=
  ⟨STANDARD_HEADERS,
   [[Cell.str "", Cell.str "A", Cell.str "", Cell.str "3", Cell.str "4",
     Cell.str "", Cell.str "", Cell.str "", Cell.str ""]]⟩

def cW2 : Table :=
  ⟨["ItemCode", "PurchasePrice", "SalesPrice"],
   [[Cell.str "A", Cell.str "1", Cell.str "2"]]⟩

def uW2 : Table :=
  ⟨["ItemCode", "PurchasePrice", "SalesPrice"],
   [[Cell.str "A", Cell.str "3", Cell.str "4"]]⟩

def mX2 : Table :=
  ⟨STANDARD_HEADERS,
   [[Cell.str "", Cell.str "A", Cell.str "", Cell.str "abc", Cell.str "2",
     Cell.str "", Cell.str "", Cell.str "", Cell.str ""],
    [Cell.str "", Cell.str "B", Cell.str "", Cell.str "5", Cell.str "6",
     Cell.str "", Cell.str "", Cell.str "", Cell.str ""]]⟩

def cX2 : Table :=
  ⟨["ItemCode", "PurchasePrice", "SalesPrice"],
   [[Cell.str "A", Cell.str "1", Cell.str "2"]]⟩

def uX2 : Table :=
  ⟨["ItemCode", "PurchasePrice", "SalesPrice"],
   [[Cell.str "A", Cell.str "abc", Cell.str "2"]]⟩

def nX2 : Table :=
  ⟨NEW_ITEM_HEADERS,
   [[Cell.str "*", Cell.str "", Cell.str "B", Cell.str "", Cell.str "5",
     Cell.str "6", Cell.str "", Cell.str "", Cell.nat 1, Cell.str "",
     Cell.str "", Cell.str "NULL", Cell.str "NULL", Cell.str "NULL"]]⟩

theorem toText_str (s : String) : (Cell.str s).toText = s := rfl

theorem colIdx_lt_length {cols : List String} {col : String} {i : Nat}
    (h : colIdx cols col = some i) : i < cols.length := by
  induction cols generalizing i with
  | nil => simp [colIdx] at h
  | cons c cs ih =>
    by_cases hc : c = col
    · simp [colIdx, hc] at h
      simp only [List.length_cons]
      omega
    · simp [colIdx, hc] at h
      obtain ⟨j, hj, rfl⟩ := h
      have := ih hj
      simp only [List.length_cons]
      omega

theorem colIdx_getD {cols : List String} {col : String} {i : Nat}
    (h : colIdx cols col = some i) : cols.getD i "" = col := by
  induction cols generalizing i with
  | nil => simp [colIdx] at h
  | cons c cs ih =>
    by_cases hc : c = col
    · simp [colIdx, hc] at h
      subst h
      simpa using hc
    · simp [colIdx, hc] at h
      obtain ⟨j, hj, rfl⟩ := h
      simpa using ih hj

theorem colIdx_inj {cols : List String} {a b : String} {i : Nat}
    (ha : colIdx cols a = some i) (hb : colIdx cols b = some i) : a = b := by
  rw [← colIdx_getD ha, ← colIdx_getD hb]

theorem colIdx_eq_none_iff {cols : List String} {col : String} :
    colIdx cols col = none ↔ col ∉ cols := by
  induction cols with
  | nil => simp [colIdx]
  | cons c cs ih =>
    by_cases hc : c = col
    · simp [colIdx, hc]
    · simp only [colIdx, hc, if_false, Option.map_eq_none', ih, List.mem_cons]
      constructor
      · intro h hor
        cases hor with
        | inl he => exact hc he.symm
        | inr hm => exact h hm
      · intro h hm
        exact h (Or.inr hm)

theorem colIdx_exists_of_mem {cols : List String} {col : String} (h : col ∈ cols) :
    ∃ i, colIdx cols col = some i := by
  cases hi : colIdx cols col with
  | none => exact absurd (colIdx_eq_none_iff.mp hi) (by simpa using h)
  | some i => exact ⟨i, rfl⟩

theorem getD_set_ne {l : Row} {i j : Nat} (h : i ≠ j) (v d : Cell) :
    (l.set i v).getD j d = l.getD j d := by
  by_cases hj : j < l.length
  · rw [List.getD_eq_getElem _ _ (by simpa using hj), List.getD_eq_getElem _ _ hj]
    exact List.getElem_set_ne h _
  · rw [List.getD_eq_default _ _ (by simpa using Nat.le_of_not_lt hj),
      List.getD_eq_default _ _ (Nat.le_of_not_lt hj)]

theorem getD_set_self {l : Row} {i : Nat} (h : i < l.length) (v d : Cell) :
    (l.set i v).getD i d = v := by
  rw [List.getD_eq_getElem _ _ (by simpa using h)]
  exact List.getElem_set_self _

theorem getCell_setCell_ne {cols : List String} {r : Row} {a b : String}
    (h : a ≠ b) (v : Cell) :
    getCell cols (setCell cols r b v) a = getCell cols r a := by
  unfold getCell setCell
  cases hb : colIdx cols b with
  | none => rfl
  | some j =>
    cases ha : colIdx cols a with
    | none => rfl
    | some i =>
      have hij : j ≠ i := by
        intro he
        subst he
        exact h (colIdx_inj ha hb)
      exact getD_set_ne hij v _

theorem getCell_setCell_self {cols : List String} {r : Row} {col : String} {i : Nat}
    (hc : colIdx cols col = some i) (hi : i < r.length) (v : Cell) :
    getCell cols (setCell cols r col v) col = v := by
  unfold getCell setCell
  rw [hc]
  exact getD_set_self hi v _

theorem setCell_length (cols : List String) (r : Row) (col : String) (v : Cell) :
    (setCell cols r col v).length = r.length := by
  unfold setCell
  cases colIdx cols col <;> simp

theorem getCell_not_mem {cols : List String} {col : String} (h : col ∉ cols) (r : Row) :
    getCell cols r col = .str "" := by
  unfold getCell
  rw [colIdx_eq_none_iff.mpr h]

theorem stripList_nil : stripList [] = [] := rfl

theorem pyStrip_empty : pyStrip "" = "" := rfl

theorem head_dropWhile_false {α : Type} (p : α → Bool) (l : List α) :
    ∀ x, (l.dropWhile p).head? = some x → p x = false := by
  induction l with
  | nil => intro x h; simp at h
  | cons a as ih =>
    intro x h
    rw [List.dropWhile_cons] at h
    split at h
    · exact ih x h
    · next hpa =>
      simp at h
      subst h
      simpa using hpa

theorem dropWhile_eq_self_of_head {α : Type} (p : α → Bool) (l : List α)
    (h : ∀ x, l.head? = some x → p x = false) : l.dropWhile p = l := by
  cases l with
  | nil => rfl
  | cons a as =>
    rw [List.dropWhile_cons]
    simp [h a rfl]

theorem stripList_idem (l : List Char) : stripList (stripList l) = stripList l := by
  cases hBe : (l.dropWhile isWs).reverse.dropWhile isWs with
  | nil => simp [stripList, hBe]
  | cons b bs =>
    have hA : l.dropWhile isWs =
        (b :: bs).reverse ++ ((l.dropWhile isWs).reverse.takeWhile isWs).reverse := by
      conv_lhs => rw [← List.reverse_reverse (l.dropWhile isWs),
        ← List.takeWhile_append_dropWhile isWs (l.dropWhile isWs).reverse]
      rw [hBe, List.reverse_append]
    have hheadA : ∀ x, (l.dropWhile isWs).head? = some x → isWs x = false :=
      head_dropWhile_false isWs l
    have hheadB : ∀ x, ((b :: bs).reverse : List Char).head? = some x → isWs x = false := by
      intro x hx
      apply hheadA
      rw [hA, List.head?_append, hx]
      rfl
    have h1 : ((b :: bs).reverse : List Char).dropWhile isWs = (b :: bs).reverse :=
      dropWhile_eq_self_of_head isWs _ hheadB
    have hb : isWs b = false := head_dropWhile_false isWs (l.dropWhile isWs).reverse b (by rw [hBe]; rfl)
    have h2 : (b :: bs : List Char).dropWhile isWs = b :: bs := by
      rw [List.dropWhile_cons]
      simp [hb]
    unfold stripList
    rw [hBe, h1, List.reverse_reverse, h2]

theorem pyStrip_idem (s : String) : pyStrip (pyStrip s) = pyStrip s := by
  unfold pyStrip
  rw [show (String.mk (stripList s.data)).data = stripList s.data from rfl, stripList_idem]

theorem any_congr_mem {α : Type} {p q : α → Bool} (l : List α)
    (h : ∀ a ∈ l, p a = q a) : l.any p = l.any q := by
  induction l with
  | nil => rfl
  | cons a as ih =>
    rw [List.any_cons, List.any_cons, h a (List.mem_cons_self a as),
      ih (fun x hx => h x (List.mem_cons_of_mem a hx))]

theorem getCell_eq_idx {cols : List String} {col : String} {i : Nat}
    (h : colIdx cols col = some i) (r : Row) :
    getCell cols r col = r.getD i (Cell.str "") := by
  unfold getCell
  rw [h]

theorem setCell_eq_idx {cols : List String} {col : String} {i : Nat}
    (h : colIdx cols col = some i) (r : Row) (v : Cell) :
    setCell cols r col v = r.set i v := by
  unfold setCell
  rw [h]

theorem getCell_normCode_ne {cols : List String} {r : Row} {col : String}
    (h : col ≠ "ItemCode") :
    getCell cols (normCode cols r) col = getCell cols r col :=
  getCell_setCell_ne h _

theorem getCell_normCode_code (cols : List String) (r : Row) :
    getCell cols (normCode cols r) "ItemCode"
      = .str (pyStrip (getCell cols r "ItemCode").toText) := by
  by_cases hmem : "ItemCode" ∈ cols
  · obtain ⟨i, hi⟩ := colIdx_exists_of_mem hmem
    by_cases hlen : i < r.length
    · exact getCell_setCell_self hi hlen _
    · have hle := Nat.le_of_not_lt hlen
      have hget : getCell cols r "ItemCode" = .str "" := by
        rw [getCell_eq_idx hi, List.getD_eq_default _ _ hle]
      have hset : normCode cols r = r := by
        unfold normCode
        rw [setCell_eq_idx hi, List.set_eq_of_length_le hle]
      rw [hset, hget, toText_str, pyStrip_empty]
  · have hn := colIdx_eq_none_iff.mpr hmem
    have hset : normCode cols r = r := by
      unfold normCode setCell
      rw [hn]
    rw [hset, getCell_not_mem hmem, toText_str, pyStrip_empty]

theorem keyOf_normCode (cols : List String) (r : Row) :
    keyOf cols (normCode cols r) = pyStrip (keyOf cols r) := by
  unfold keyOf
  rw [getCell_normCode_code, toText_str]

theorem keyOf_setCell_ne {cols : List String} {col : String} (h : col ≠ "ItemCode")
    (r : Row) (v : Cell) : keyOf cols (setCell cols r col v) = keyOf cols r := by
  unfold keyOf
  rw [getCell_setCell_ne (fun he => h he.symm)]

theorem keyOf_updateRow (m c : Table) (r : Row) :
    keyOf c.cols (updateRow m c r) = keyOf c.cols r := by
  unfold updateRow
  split
  · cases hl : lookupRow m.cols (lookupOf m) (keyOf c.cols r) with
    | none => simp [hl]
    | some mr =>
      simp only [hl]
      rw [keyOf_setCell_ne (by decide), keyOf_setCell_ne (by decide)]
  · rfl

theorem getCell_updateRow_ne {col : String} (hPP : col ≠ "PurchasePrice")
    (hSP : col ≠ "SalesPrice") (m c : Table) (r : Row) :
    getCell c.cols (updateRow m c r) col = getCell c.cols r col := by
  unfold updateRow
  split
  · cases hl : lookupRow m.cols (lookupOf m) (keyOf c.cols r) with
    | none => simp [hl]
    | some mr =>
      simp only [hl]
      rw [getCell_setCell_ne hSP, getCell_setCell_ne hPP]
  · rfl

theorem getCell_updateRow_prices {m c : Table} {r mr : Row}
    (hlen : c.cols.length ≤ r.length)
    (hin : (codesToUpdate m c).contains (keyOf c.cols r) = true)
    (hl : lookupRow m.cols (lookupOf m) (keyOf c.cols r) = some mr)
    (hPP : "PurchasePrice" ∈ c.cols) (hSP : "SalesPrice" ∈ c.cols) :
    getCell c.cols (updateRow m c r) "PurchasePrice" = getCell m.cols mr "PurchasePrice" ∧
    getCell c.cols (updateRow m c r) "SalesPrice" = getCell m.cols mr "SalesPrice" := by
  obtain ⟨i, hi⟩ := colIdx_exists_of_mem hPP
  obtain ⟨j, hj⟩ := colIdx_exists_of_mem hSP
  unfold updateRow
  simp only [hin, if_true, hl]
  constructor
  · rw [getCell_setCell_ne (by decide)]
    exact getCell_setCell_self hi (lt_of_lt_of_le (colIdx_lt_length hi) hlen) _
  · refine getCell_setCell_self hj ?_ _
    rw [setCell_length]
    exact lt_of_lt_of_le (colIdx_lt_length hj) hlen

theorem dedupKeepLast_sublist (cols : List String) (l : List Row) :
    (dedupKeepLast cols l).Sublist l := by
  induction l with
  | nil => exact List.Sublist.refl []
  | cons r rest ih =>
    unfold dedupKeepLast
    split
    · exact List.Sublist.cons r ih
    · exact List.Sublist.cons₂ r ih

theorem find?_dedup (cols : List String) (l : List Row) (k : String) :
    List.find? (fun r => keyOf cols r == k) (dedupKeepLast cols l)
      = l.reverse.find? (fun r => keyOf cols r == k) := by
  induction l with
  | nil => rfl
  | cons r rest ih =>
    rw [List.reverse_cons, List.find?_append]
    unfold dedupKeepLast
    split
    · next hany =>
      rw [ih]
      cases hfind : List.find? (fun x => keyOf cols x == k) rest.reverse with
      | some x => rfl
      | none =>
        have hnone : ∀ x ∈ rest, ¬ (keyOf cols x == k) = true := by
          intro x hx
          exact (List.find?_eq_none.mp hfind) x (by simpa using hx)
        have hpr : (keyOf cols r == k) = false := by
          rw [Bool.eq_false_iff]
          intro hpk
          obtain ⟨x, hx, hxk⟩ := List.any_eq_true.mp hany
          apply hnone x hx
          rw [beq_iff_eq] at hxk ⊢
          rw [hxk]
          exact beq_iff_eq.mp hpk
        simp [List.find?_cons, hpr]
    · next hany =>
      cases hpr : (keyOf cols r == k) with
      | true =>
        have hnone : List.find? (fun x => keyOf cols x == k) rest.reverse = none := by
          rw [List.find?_eq_none]
          intro x hx hxk
          apply hany
          apply List.any_eq_true.mpr
          refine ⟨x, by simpa using hx, ?_⟩
          rw [beq_iff_eq] at hxk ⊢
          rw [hxk]
          exact (beq_iff_eq.mp hpr).symm
        rw [hnone, Option.none_or]
        simp [List.find?_cons, hpr]
      | false =>
        have hr : List.find? (fun x => keyOf cols x == k) [r] = none := by
          simp [List.find?_cons, hpr]
        rw [hr, Option.or_none, ← ih]
        simp [List.find?_cons, hpr]

theorem lookupRow_dedup (cols : List String) (l : List Row) (k : String) :
    lookupRow cols (dedupKeepLast cols l) k
      = l.reverse.find? (fun r => keyOf cols r == k) :=
  find?_dedup cols l k

theorem dedup_countP (cols : List String) (l : List Row) (k : String) :
    (dedupKeepLast cols l).countP (fun r => keyOf cols r == k)
      = if l.any (fun r => keyOf cols r == k) then 1 else 0 := by
  induction l with
  | nil => rfl
  | cons r rest ih =>
    unfold dedupKeepLast
    rw [List.any_cons]
    split
    · next hany =>
      rw [ih]
      cases hpr : (keyOf cols r == k) with
      | false => rw [Bool.false_or]
      | true =>
        have hrest : rest.any (fun x => keyOf cols x == k) = true := by
          obtain ⟨x, hx, hxk⟩ := List.any_eq_true.mp hany
          apply List.any_eq_true.mpr
          refine ⟨x, hx, ?_⟩
          rw [beq_iff_eq] at hxk ⊢
          rw [hxk]
          exact beq_iff_eq.mp hpr
        rw [hrest, Bool.true_or]
    · next hany =>
      rw [List.countP_cons, ih]
      cases hpr : (keyOf cols r == k) with
      | false => simp [hpr]
      | true =>
        have hrest : rest.any (fun x => keyOf cols x == k) = false := by
          rw [Bool.eq_false_iff]
          intro hx
          apply hany
          obtain ⟨x, hxm, hxk⟩ := List.any_eq_true.mp hx
          apply List.any_eq_true.mpr
          refine ⟨x, hxm, ?_⟩
          rw [beq_iff_eq] at hxk ⊢
          rw [hxk]
          exact (beq_iff_eq.mp hpr).symm
        simp [hrest, hpr]

theorem find?_map_comm (cols cols2 : List String) (f : Row → Row) (l : List Row)
    (hf : ∀ r ∈ l, keyOf cols2 (f r) = keyOf cols r) (k : String) :
    List.find? (fun r => keyOf cols2 r == k) (l.map f)
      = (List.find? (fun r => keyOf cols r == k) l).map f := by
  induction l with
  | nil => rfl
  | cons r rest ih =>
    rw [List.map_cons]
    simp only [List.find?_cons]
    rw [hf r (List.mem_cons_self r rest)]
    cases hpr : (keyOf cols r == k) with
    | true => rfl
    | false => exact ih (fun x hx => hf x (List.mem_cons_of_mem r hx))

theorem dedup_map_comm (cols cols2 : List String) (f : Row → Row) (l : List Row)
    (hf : ∀ r ∈ l, keyOf cols2 (f r) = keyOf cols r) :
    dedupKeepLast cols2 (l.map f) = (dedupKeepLast cols l).map f := by
  induction l with
  | nil => rfl
  | cons r rest ih =>
    have hr := hf r (List.mem_cons_self r rest)
    have hrest : ∀ x ∈ rest, keyOf cols2 (f x) = keyOf cols x :=
      fun x hx => hf x (List.mem_cons_of_mem r hx)
    rw [List.map_cons]
    unfold dedupKeepLast
    have hany : ((rest.map f).any (fun r2 => keyOf cols2 r2 == keyOf cols2 (f r)))
        = (rest.any (fun r2 => keyOf cols r2 == keyOf cols r)) := by
      rw [List.any_map]
      apply any_congr_mem
      intro x hx
      simp only [Function.comp]
      rw [hrest x hx, hr]
    rw [hany]
    cases hc : rest.any (fun r2 => keyOf cols r2 == keyOf cols r) with
    | true =>
      rw [if_pos rfl, if_pos rfl]
      exact ih hrest
    | false =>
      rw [if_neg (by simp), if_neg (by simp), List.map_cons, ih hrest]

theorem getCell_map_cols {cols : List String} {col : String} {i : Nat}
    (h : colIdx cols col = some i) (g : String → Cell) :
    getCell cols (cols.map g) col = g col := by
  rw [getCell_eq_idx h]
  have hlt := colIdx_lt_length h
  have hmap : (cols.map g).getD i (Cell.str "") = g (cols.getD i "") := by
    rw [List.getD_eq_getElem _ _ (by simpa using hlt), List.getD_eq_getElem _ _ hlt,
      List.getElem_map]
  rw [hmap, colIdx_getD h]

theorem getCell_reindexRow {cols order : List String} {col : String} {i : Nat}
    (h : colIdx order col = some i) (r : Row) :
    getCell order (reindexRow cols order r) col = getCell cols r col := by
  unfold reindexRow
  exact getCell_map_cols h (fun c => getCell cols r c)

theorem updatedRows_eq_map (m c : Table) :
    updatedRows m c = (normRows c).map (updateRow m c) := by
  unfold updatedRows
  split
  · next hemp =>
    have hnil : codesToUpdate m c = [] := List.isEmpty_iff.mp hemp
    have hpoint : ∀ r ∈ normRows c, r = updateRow m c r := by
      intro r _
      unfold updateRow
      rw [hnil]
      rw [if_neg (by simp [List.contains])]
    calc normRows c = (normRows c).map id := (List.map_id _).symm
      _ = (normRows c).map (updateRow m c) := List.map_congr_left hpoint
  · rfl

theorem updatedCatalog_cols (m c : Table) : (updatedCatalog m c).cols = c.cols := rfl

theorem updatedCatalog_rows (m c : Table) :
    (updatedCatalog m c).rows
      = c.rows.map
          (fun r => reindexRow c.cols c.cols (updateRow m c (normCode c.cols r))) := by
  unfold updatedCatalog Table.reindexCols
  simp only [updatedRows_eq_map, normRows, List.map_map]
  rfl

theorem mem_keys_lookup {t : Table} {k : String} (h : k ∈ keysOf t) :
    ∃ r, lookupRow t.cols (lookupOf t) k = some r ∧ keyOf t.cols r = k := by
  unfold keysOf at h
  obtain ⟨r, hr, hk⟩ := List.mem_map.mp h
  have hsome : (List.find? (fun x => keyOf t.cols x == k) (lookupOf t)).isSome = true := by
    rw [List.find?_isSome]
    exact ⟨r, hr, by rw [beq_iff_eq]; exact hk⟩
  obtain ⟨x, hx⟩ := Option.isSome_iff_exists.mp hsome
  have hpx : (keyOf t.cols x == k) = true :=
    @List.find?_some Row (fun y => keyOf t.cols y == k) x (lookupOf t) hx
  exact ⟨x, hx, beq_iff_eq.mp hpx⟩

theorem lookupRow_mem {t : Table} {k : String} {r : Row}
    (h : lookupRow t.cols (lookupOf t) k = some r) : r ∈ normRows t :=
  List.Sublist.mem (List.mem_of_find?_eq_some h) (dedupKeepLast_sublist _ _)

theorem keyOf_mem_normRows {c : Table} {r : Row} (h : r ∈ normRows c) :
    pyStrip (keyOf c.cols r) = keyOf c.cols r := by
  unfold normRows at h
  obtain ⟨r0, _, rfl⟩ := List.mem_map.mp h
  rw [keyOf_normCode, pyStrip_idem]

theorem keyOf_G {m c : Table} (hIC : "ItemCode" ∈ c.cols) {r : Row} (hr : r ∈ normRows c) :
    keyOf c.cols (normCode c.cols (reindexRow c.cols c.cols (updateRow m c r)))
      = keyOf c.cols r := by
  obtain ⟨i, hi⟩ := colIdx_exists_of_mem hIC
  have h1 : keyOf c.cols (reindexRow c.cols c.cols (updateRow m c r))
      = keyOf c.cols (updateRow m c r) := by
    unfold keyOf
    rw [getCell_reindexRow hi]
  rw [keyOf_normCode, h1, keyOf_updateRow, keyOf_mem_normRows hr]

theorem normRows_updatedCatalog (m c : Table) :
    normRows (updatedCatalog m c)
      = (normRows c).map
          (fun r => normCode c.cols (reindexRow c.cols c.cols (updateRow m c r))) := by
  unfold normRows
  rw [updatedCatalog_rows]
  rw [show (updatedCatalog m c).cols = c.cols from rfl]
  rw [List.map_map, List.map_map]
  rfl

theorem lookupOf_updatedCatalog (m c : Table) (hIC : "ItemCode" ∈ c.cols) :
    lookupOf (updatedCatalog m c)
      = (lookupOf c).map
          (fun r => normCode c.cols (reindexRow c.cols c.cols (updateRow m c r))) := by
  unfold lookupOf
  rw [show (updatedCatalog m c).cols = c.cols from rfl, normRows_updatedCatalog]
  exact dedup_map_comm c.cols c.cols _ (normRows c) (fun r hr => keyOf_G hIC hr)

theorem keysOf_updatedCatalog (m c : Table) (hIC : "ItemCode" ∈ c.cols) :
    keysOf (updatedCatalog m c) = keysOf c := by
  unfold keysOf
  rw [lookupOf_updatedCatalog m c hIC,
    show (updatedCatalog m c).cols = c.cols from rfl, List.map_map]
  apply List.map_congr_left
  intro r hr
  exact keyOf_G hIC (List.Sublist.mem hr (dedupKeepLast_sublist _ _))

theorem lookupRow_updatedCatalog (m c : Table) (hIC : "ItemCode" ∈ c.cols) (k : String) :
    lookupRow c.cols (lookupOf (updatedCatalog m c)) k
      = (lookupRow c.cols (lookupOf c) k).map
          (fun r => normCode c.cols (reindexRow c.cols c.cols (updateRow m c r))) := by
  rw [lookupOf_updatedCatalog m c hIC]
  exact find?_map_comm c.cols c.cols _ (lookupOf c)
    (fun r hr => keyOf_G hIC (List.Sublist.mem hr (dedupKeepLast_sublist _ _))) k

theorem getCell_G_ne {m c : Table} (r : Row) {col : String}
    (hcol : col ∈ c.cols) (hne : col ≠ "ItemCode") :
    getCell c.cols (normCode c.cols (reindexRow c.cols c.cols (updateRow m c r))) col
      = getCell c.cols (updateRow m c r) col := by
  obtain ⟨i, hi⟩ := colIdx_exists_of_mem hcol
  rw [getCell_normCode_ne hne, getCell_reindexRow hi]

/-- C1: for every catalog table containing the three required columns and
every standardized table, the updated catalog returned by
`compare_and_build_exports` has exactly the same column names in exactly
the same order as the input catalog, regardless of internal reindexing. -/
theorem C1_column_order_preserved (m c u n : Table) (uc nc : Nat)
    (h : compare_and_build_exports m c = .ok (u, n, uc, nc)) :
    u.cols = c.cols := by
  unfold compare_and_build_exports at h
  split at h
  · split at h
    · split at h
      · simp at h
      · simp only [Except.ok.injEq, Prod.mk.injEq] at h
        obtain ⟨hu, hn, huc, hnc⟩ := h
        subst hu
        rfl
    · simp at h
  · simp at h

theorem C1_column_order_preserved_witness :
    (Table.mk ["Notes", "ItemCode", "PurchasePrice", "SalesPrice"] []).cols = cW1.cols :=
  C1_column_order_preserved mW1 cW1
    (Table.mk ["Notes", "ItemCode", "PurchasePrice", "SalesPrice"] [])
    (Table.mk [] []) 0 0 (by rfl)

/-- C8: `compare_and_build_exports` fails with the schema error naming the
missing columns if and only if the catalog lacks at least one of ItemCode,
PurchasePrice, SalesPrice; on this failure nothing is returned (no ok
value exists), and no other failure carries the schema-error message
shape. -/
theorem C8_schema_error_iff (m c : Table) :
    ((catalogMissing c).isEmpty = false →
      compare_and_build_exports m c = .error (schemaErrorMsg (catalogMissing c))) ∧
    (∀ msg, compare_and_build_exports m c = .error msg →
      "Marina catalog must contain".isPrefixOf msg = true →
      (catalogMissing c).isEmpty = false) ∧
    (∀ res, compare_and_build_exports m c = .ok res →
      (catalogMissing c).isEmpty = true) := by
  refine ⟨?_, ?_, ?_⟩
  · intro hE
    unfold compare_and_build_exports
    rw [if_neg (by rw [hE]; simp)]
  · intro msg hmsg hpre
    cases hE : (catalogMissing c).isEmpty with
    | false => rfl
    | true =>
      unfold compare_and_build_exports at hmsg
      rw [if_pos hE] at hmsg
      split at hmsg
      · split at hmsg
        · simp only [Except.error.injEq] at hmsg
          subst hmsg
          exact absurd hpre (by decide)
        · simp at hmsg
      · simp only [Except.error.injEq] at hmsg
        subst hmsg
        exact absurd hpre (by decide)
  · intro res hres
    cases hE : (catalogMissing c).isEmpty with
    | true => rfl
    | false =>
      unfold compare_and_build_exports at hres
      rw [if_neg (by rw [hE]; simp)] at hres
      simp at hres

theorem C8_schema_error_iff_witness :
    compare_and_build_exports mW8 cW8
      = .error (schemaErrorMsg (catalogMissing cW8)) :=
  (C8_schema_error_iff mW8 cW8).1 (by rfl)

theorem compare_ok {m c u n : Table} {uc nc : Nat}
    (h : compare_and_build_exports m c = .ok (u, n, uc, nc)) :
    u = updatedCatalog m c ∧ n = newItemsTable m c ∧
    uc = (codesToUpdate m c).length ∧ nc = (newCodes m c).length ∧
    (catalogMissing c).isEmpty = true ∧ m.cols.contains "ItemCode" = true ∧
    ¬ ((bothCodes m c).isEmpty = false ∧
        (m.cols.contains "PurchasePrice" = false ∨
         m.cols.contains "SalesPrice" = false)) := by
  unfold compare_and_build_exports at h
  split at h
  · next hA =>
    split at h
    · next hB =>
      split at h
      · simp at h
      · next hC =>
        simp only [Except.ok.injEq, Prod.mk.injEq] at h
        obtain ⟨hu, hn, huc, hnc⟩ := h
        exact ⟨hu.symm, hn.symm, huc.symm, hnc.symm, hA, hB, hC⟩
    · simp at h
  · simp at h

theorem required_mem_of_missing_empty {c : Table}
    (h : (catalogMissing c).isEmpty = true) :
    "ItemCode" ∈ c.cols ∧ "PurchasePrice" ∈ c.cols ∧ "SalesPrice" ∈ c.cols := by
  have h' : catalogMissing c = [] := List.isEmpty_iff.mp h
  unfold catalogMissing requiredCatalogCols at h'
  have hall := List.filter_eq_nil_iff.mp h'
  refine ⟨?_, ?_, ?_⟩
  · have hx := hall "ItemCode" (by simp)
    simpa using hx
  · have hx := hall "PurchasePrice" (by simp)
    simpa using hx
  · have hx := hall "SalesPrice" (by simp)
    simpa using hx

theorem getD_map_rows {f : Row → Row} {l : List Row} {i : Nat} (hi : i < l.length) :
    (l.map f).getD i [] = f (l.getD i []) := by
  rw [List.getD_eq_getElem _ _ (by simpa using hi), List.getD_eq_getElem _ _ hi,
    List.getElem_map]

theorem not_mem_codesToUpdate_of_not_mem_keys {m c : Table} {k : String}
    (h : k ∉ keysOf m) : k ∉ codesToUpdate m c := by
  intro hmem
  have h1 : k ∈ bothCodes m c := (List.mem_filter.mp hmem).1
  have h2 := (List.mem_filter.mp h1).2
  simp only [List.contains_iff_exists_mem_beq] at h2
  obtain ⟨x, hx, hbe⟩ := h2
  rw [beq_iff_eq] at hbe
  exact h (hbe ▸ hx)

theorem updateRow_eq_self {m c : Table} {r : Row}
    (h : keyOf c.cols r ∉ codesToUpdate m c) : updateRow m c r = r := by
  unfold updateRow
  rw [if_neg]
  simpa using h

/-- C4 (amended): a catalog row whose trimmed ItemCode never appears in the
standardized table is present at its position in the updated catalog with
every cell other than ItemCode identical; its ItemCode cell holds the
trimmed text of the original cell (hence such a row is fully unmodified
exactly when its ItemCode was already trimmed text). -/
theorem C4_catalog_only_rows_amended (m c u n : Table) (uc nc : Nat)
    (h : compare_and_build_exports m c = .ok (u, n, uc, nc))
    (i : Nat) (hi : i < c.rows.length)
    (hk : keyOf c.cols (normCode c.cols (c.rows.getD i [])) ∉ keysOf m) :
    u.rows.length = c.rows.length ∧
    (∀ col, col ≠ "ItemCode" →
      getCell c.cols (u.rows.getD i []) col = getCell c.cols (c.rows.getD i []) col) ∧
    getCell c.cols (u.rows.getD i []) "ItemCode"
      = .str (pyStrip (getCell c.cols (c.rows.getD i []) "ItemCode").toText) := by
  obtain ⟨hu, -, -, -, hmiss, -⟩ := compare_ok h
  subst hu
  obtain ⟨hIC, hPP, hSP⟩ := required_mem_of_missing_empty hmiss
  obtain ⟨ic, hic⟩ := colIdx_exists_of_mem hIC
  have hrows := updatedCatalog_rows m c
  have hlen : (updatedCatalog m c).rows.length = c.rows.length := by
    rw [hrows, List.length_map]
  have hget : (updatedCatalog m c).rows.getD i []
      = reindexRow c.cols c.cols (updateRow m c (normCode c.cols (c.rows.getD i []))) := by
    rw [hrows, getD_map_rows hi]
  have hupd : updateRow m c (normCode c.cols (c.rows.getD i []))
      = normCode c.cols (c.rows.getD i []) :=
    updateRow_eq_self (not_mem_codesToUpdate_of_not_mem_keys hk)
  refine ⟨hlen, ?_, ?_⟩
  · intro col hcol
    by_cases hmem : col ∈ c.cols
    · obtain ⟨j, hj⟩ := colIdx_exists_of_mem hmem
      rw [hget, hupd, getCell_reindexRow hj, getCell_normCode_ne hcol]
    · rw [getCell_not_mem hmem, getCell_not_mem hmem]
  · rw [hget, hupd, getCell_reindexRow hic, getCell_normCode_code]

theorem C4_catalog_only_rows_amended_witness :
    (Table.mk ["ItemCode", "PurchasePrice", "SalesPrice"]
        [[Cell.str "X", Cell.str "1", Cell.str "2"]]).rows.length = cW4.rows.length ∧
    getCell cW4.cols
        ((Table.mk ["ItemCode", "PurchasePrice", "SalesPrice"]
          [[Cell.str "X", Cell.str "1", Cell.str "2"]]).rows.getD 0 []) "Notes"
      = getCell cW4.cols (cW4.rows.getD 0 []) "Notes" ∧
    getCell cW4.cols
        ((Table.mk ["ItemCode", "PurchasePrice", "SalesPrice"]
          [[Cell.str "X", Cell.str "1", Cell.str "2"]]).rows.getD 0 []) "ItemCode"
      = .str (pyStrip (getCell cW4.cols (cW4.rows.getD 0 []) "ItemCode").toText) :=
  ⟨(C4_catalog_only_rows_amended mW4 cW4
      (Table.mk ["ItemCode", "PurchasePrice", "SalesPrice"]
        [[Cell.str "X", Cell.str "1", Cell.str "2"]])
      (Table.mk [] []) 0 0 (by rfl) 0 (by decide) (by decide)).1,
   (C4_catalog_only_rows_amended mW4 cW4
      (Table.mk ["ItemCode", "PurchasePrice", "SalesPrice"]
        [[Cell.str "X", Cell.str "1", Cell.str "2"]])
      (Table.mk [] []) 0 0 (by rfl) 0 (by decide) (by decide)).2.1 "Notes" (by decide),
   (C4_catalog_only_rows_amended mW4 cW4
      (Table.mk ["ItemCode", "PurchasePrice", "SalesPrice"]
        [[Cell.str "X", Cell.str "1", Cell.str "2"]])
      (Table.mk [] []) 0 0 (by rfl) 0 (by decide) (by decide)).2.2⟩

/-- C4 is false as stated: the key " X " (trimmed: "X") never appears in the
standardized table, yet the catalog-only row comes back with its ItemCode
cell rewritten from " X " to "X", so not every cell is identical. -/
theorem C4_counterexample :
    keysOf mX4 = [] ∧
    compare_and_build_exports mX4 cX4
      = .ok (Table.mk ["ItemCode", "PurchasePrice", "SalesPrice"]
          [[Cell.str "X", Cell.str "1", Cell.str "2"]], Table.mk [] [], 0, 0) ∧
    (Table.mk ["ItemCode", "PurchasePrice", "SalesPrice"]
        [[Cell.str "X", Cell.str "1", Cell.str "2"]]).rows.getD 0 []
      ≠ cX4.rows.getD 0 [] := by
  refine ⟨rfl, by rfl, by decide⟩

theorem mem_rows_getD {l : List Row} {i : Nat} (hi : i < l.length) :
    l.getD i [] ∈ l := by
  rw [List.getD_eq_getElem _ _ hi]
  exact List.getElem_mem hi

theorem normCode_length (cols : List String) (r : Row) :
    (normCode cols r).length = r.length := by
  unfold normCode
  exact setCell_length cols r "ItemCode" _

theorem contains_of_mem {l : List String} {a : String} (h : a ∈ l) :
    l.contains a = true := by
  simpa using h

/-- C3 (amended): for every key present in both tables whose parsed prices
differ, every updated-catalog row bearing that key has its PurchasePrice
and SalesPrice cells overwritten with the standardized lookup row's
original unparsed text cells (not the parsed numeric form); every column
other than PurchasePrice, SalesPrice and ItemCode is unchanged on that
row, while ItemCode is rewritten to the trimmed text of the original cell
(unchanged when already trimmed); updatedCount equals the number of keys
in both tables whose parsed prices differ. -/
theorem C3_selective_price_update_amended (m c u n : Table) (uc nc : Nat)
    (h : compare_and_build_exports m c = .ok (u, n, uc, nc))
    (hrect : c.Rect)
    (k : String) (mr : Row)
    (hk : k ∈ bothCodes m c)
    (hne : needsUpdate m c k = true)
    (hmr : lookupRow m.cols (lookupOf m) k = some mr)
    (i : Nat) (hi : i < c.rows.length)
    (hki : keyOf c.cols (normCode c.cols (c.rows.getD i [])) = k) :
    getCell c.cols (u.rows.getD i []) "PurchasePrice"
      = getCell m.cols mr "PurchasePrice" ∧
    getCell c.cols (u.rows.getD i []) "SalesPrice"
      = getCell m.cols mr "SalesPrice" ∧
    (∀ col, col ≠ "PurchasePrice" → col ≠ "SalesPrice" → col ≠ "ItemCode" →
      getCell c.cols (u.rows.getD i []) col = getCell c.cols (c.rows.getD i []) col) ∧
    getCell c.cols (u.rows.getD i []) "ItemCode"
      = .str (pyStrip (getCell c.cols (c.rows.getD i []) "ItemCode").toText) ∧
    uc = ((bothCodes m c).filter (needsUpdate m c)).length := by
  obtain ⟨hu, -, huc, -, hmiss, -⟩ := compare_ok h
  subst hu
  obtain ⟨hIC, hPP, hSP⟩ := required_mem_of_missing_empty hmiss
  obtain ⟨ic, hic⟩ := colIdx_exists_of_mem hIC
  have hkc : k ∈ codesToUpdate m c := List.mem_filter.mpr ⟨hk, hne⟩
  have hget : (updatedCatalog m c).rows.getD i []
      = reindexRow c.cols c.cols (updateRow m c (normCode c.cols (c.rows.getD i []))) := by
    rw [updatedCatalog_rows, getD_map_rows hi]
  have hlen : c.cols.length ≤ (normCode c.cols (c.rows.getD i [])).length := by
    rw [normCode_length, hrect _ (mem_rows_getD hi)]
  have hin : (codesToUpdate m c).contains
      (keyOf c.cols (normCode c.cols (c.rows.getD i []))) = true := by
    rw [hki]
    exact contains_of_mem hkc
  have hl : lookupRow m.cols (lookupOf m)
      (keyOf c.cols (normCode c.cols (c.rows.getD i []))) = some mr := by
    rw [hki]
    exact hmr
  obtain ⟨hppv, hspv⟩ := getCell_updateRow_prices hlen hin hl hPP hSP
  obtain ⟨jp, hjp⟩ := colIdx_exists_of_mem hPP
  obtain ⟨js, hjs⟩ := colIdx_exists_of_mem hSP
  refine ⟨?_, ?_, ?_, ?_, ?_⟩
  · rw [hget, getCell_reindexRow hjp, hppv]
  · rw [hget, getCell_reindexRow hjs, hspv]
  · intro col hcp hcs hcic
    by_cases hmem : col ∈ c.cols
    · obtain ⟨j, hj⟩ := colIdx_exists_of_mem hmem
      rw [hget, getCell_reindexRow hj, getCell_updateRow_ne hcp hcs,
        getCell_normCode_ne hcic]
    · rw [getCell_not_mem hmem, getCell_not_mem hmem]
  · rw [hget, getCell_reindexRow hic,
      getCell_updateRow_ne (by decide) (by decide), getCell_normCode_code]
  · exact huc

theorem C3_selective_price_update_amended_witness :
    getCell cW3.cols (uW3.rows.getD 0 []) "SalesPrice" = getCell mW3.cols mrW3 "SalesPrice" ∧
    getCell cW3.cols (uW3.rows.getD 0 []) "Notes" = getCell cW3.cols (cW3.rows.getD 0 []) "Notes" :=
  ⟨(C3_selective_price_update_amended mW3 cW3 uW3 (Table.mk [] []) 1 0 (by decide)
      (by decide) "A1" mrW3 (by decide) (by decide) (by decide) 0 (by decide) (by decide)).2.1,
   (C3_selective_price_update_amended mW3 cW3 uW3 (Table.mk [] []) 1 0 (by decide)
      (by decide) "A1" mrW3 (by decide) (by decide) (by decide) 0 (by decide) (by decide)).2.2.1
     "Notes" (by decide) (by decide) (by decide)⟩

/-- C3 is false as stated: the key "A1" is in both tables with differing
parsed prices, but besides the two price cells the updated row's ItemCode
cell also changes (from " A1 " to the trimmed "A1"), so it is not the case
that every other column of the row is left unchanged. -/
theorem C3_counterexample :
    compare_and_build_exports mX3 cX3
      = .ok (Table.mk ["ItemCode", "PurchasePrice", "SalesPrice", "Notes"]
          [[Cell.str "A1", Cell.str "10", Cell.str "25", Cell.str "keep"]],
          Table.mk [] [], 1, 0) ∧
    "A1" ∈ bothCodes mX3 cX3 ∧
    needsUpdate mX3 cX3 "A1" = true ∧
    getCell cX3.cols
        ((Table.mk ["ItemCode", "PurchasePrice", "SalesPrice", "Notes"]
          [[Cell.str "A1", Cell.str "10", Cell.str "25", Cell.str "keep"]]).rows.getD 0 [])
        "ItemCode"
      ≠ getCell cX3.cols (cX3.rows.getD 0 []) "ItemCode" := by
  refine ⟨by decide, by decide, by decide, by decide⟩

/-- C10: when several catalog rows share one trimmed ItemCode and
`compare_and_build_exports` flags that key as differing, the difference
test consults only the last-occurring catalog row for the key (the
deduplicated lookup row is the last occurrence), the PurchasePrice and
SalesPrice overwrite is applied to every catalog row bearing the key, and
no duplicate row is dropped from the updated catalog. -/
theorem C10_duplicate_catalog_rows (m c u n : Table) (uc nc : Nat)
    (h : compare_and_build_exports m c = .ok (u, n, uc, nc))
    (hrect : c.Rect)
    (k : String) (mr : Row)
    (hk : k ∈ codesToUpdate m c)
    (hmr : lookupRow m.cols (lookupOf m) k = some mr) :
    lookupRow c.cols (lookupOf c) k
      = (normRows c).reverse.find? (fun r2 => keyOf c.cols r2 == k) ∧
    u.rows.length = c.rows.length ∧
    (∀ i, i < c.rows.length →
      keyOf c.cols (normCode c.cols (c.rows.getD i [])) = k →
      getCell c.cols (u.rows.getD i []) "PurchasePrice"
          = getCell m.cols mr "PurchasePrice" ∧
      getCell c.cols (u.rows.getD i []) "SalesPrice"
          = getCell m.cols mr "SalesPrice") := by
  obtain ⟨hu, -, -, -, hmiss, -⟩ := compare_ok h
  subst hu
  obtain ⟨hIC, hPP, hSP⟩ := required_mem_of_missing_empty hmiss
  refine ⟨?_, ?_, ?_⟩
  · unfold lookupOf
    exact lookupRow_dedup c.cols (normRows c) k
  · rw [updatedCatalog_rows, List.length_map]
  · intro i hi hki
    have hget : (updatedCatalog m c).rows.getD i []
        = reindexRow c.cols c.cols (updateRow m c (normCode c.cols (c.rows.getD i []))) := by
      rw [updatedCatalog_rows, getD_map_rows hi]
    have hlen : c.cols.length ≤ (normCode c.cols (c.rows.getD i [])).length := by
      rw [normCode_length, hrect _ (mem_rows_getD hi)]
    have hin : (codesToUpdate m c).contains
        (keyOf c.cols (normCode c.cols (c.rows.getD i []))) = true := by
      rw [hki]
      exact contains_of_mem hk
    have hl : lookupRow m.cols (lookupOf m)
        (keyOf c.cols (normCode c.cols (c.rows.getD i []))) = some mr := by
      rw [hki]
      exact hmr
    obtain ⟨hppv, hspv⟩ := getCell_updateRow_prices hlen hin hl hPP hSP
    obtain ⟨jp, hjp⟩ := colIdx_exists_of_mem hPP
    obtain ⟨js, hjs⟩ := colIdx_exists_of_mem hSP
    constructor
    · rw [hget, getCell_reindexRow hjp, hppv]
    · rw [hget, getCell_reindexRow hjs, hspv]

theorem C10_duplicate_catalog_rows_witness :
    uW10.rows.length = cW10.rows.length ∧
    getCell cW10.cols (uW10.rows.getD 0 []) "PurchasePrice"
      = getCell mW10.cols mrW10 "PurchasePrice" ∧
    getCell cW10.cols (uW10.rows.getD 1 []) "PurchasePrice"
      = getCell mW10.cols mrW10 "PurchasePrice" :=
  ⟨(C10_duplicate_catalog_rows mW10 cW10 uW10 (Table.mk [] []) 1 0 (by decide)
      (by decide) "D" mrW10 (by decide) (by decide)).2.1,
   ((C10_duplicate_catalog_rows mW10 cW10 uW10 (Table.mk [] []) 1 0 (by decide)
      (by decide) "D" mrW10 (by decide) (by decide)).2.2 0 (by decide) (by decide)).1,
   ((C10_duplicate_catalog_rows mW10 cW10 uW10 (Table.mk [] []) 1 0 (by decide)
      (by decide) "D" mrW10 (by decide) (by decide)).2.2 1 (by decide) (by decide)).1⟩

/-- C5: in the difference test of `compare_and_build_exports` a price cell
that fails numeric parsing (empty string, "nan", "None", or unparsable
text after comma-stripping and trimming) becomes a null value; null is
distinct from every concrete number and from another null; hence a key in
both tables whose catalog PurchasePrice is unparsable is classified as
differing and updated, whether the standardized side parses (null against
number) or not (null against null). -/
theorem C5_null_price_semantics (m c : Table) (k : String) (cr mr : Row)
    (hk : k ∈ bothCodes m c)
    (hc : lookupRow c.cols (lookupOf c) k = some cr)
    (hm : lookupRow m.cols (lookupOf m) k = some mr)
    (hnull : to_num (getCell c.cols cr "PurchasePrice").toText = none) :
    to_num "" = none ∧ to_num " nan " = none ∧ to_num "None" = none ∧
    to_num "1,2x3" = none ∧
    (∀ x : Option Rat, numNe none x = true) ∧
    (∀ v : Rat, numNe (some v) none = true) ∧
    needsUpdate m c k = true ∧ k ∈ codesToUpdate m c := by
  have h7 : needsUpdate m c k = true := by
    unfold needsUpdate
    rw [hc, hm]
    show (priceNe m c cr mr "PurchasePrice" || priceNe m c cr mr "SalesPrice") = true
    have hpp : priceNe m c cr mr "PurchasePrice" = true := by
      unfold priceNe
      rw [hnull]
      cases to_num (getCell m.cols mr "PurchasePrice").toText <;> rfl
    rw [hpp, Bool.true_or]
  refine ⟨by decide, by decide, by decide, by decide, ?_, ?_, h7, ?_⟩
  · intro x
    cases x <;> rfl
  · intro v
    rfl
  · exact List.mem_filter.mpr ⟨hk, h7⟩

theorem C5_null_price_semantics_witness :
    needsUpdate mW5 cW5 "E" = true ∧ "E" ∈ codesToUpdate mW5 cW5 :=
  ⟨(C5_null_price_semantics mW5 cW5 "E" crW5 mrW5 (by decide) (by decide)
      (by decide) (by decide)).2.2.2.2.2.2.1,
   (C5_null_price_semantics mW5 cW5 "E" crW5 mrW5 (by decide) (by decide)
      (by decide) (by decide)).2.2.2.2.2.2.2⟩

/-- C7: for every key of the assembled standardized rows, `build_df_mapped`
retains exactly one row with that key, namely the last occurrence in the
assembled row order (so all its field values come from that last
occurrence), and the retained rows keep their original relative order
(the output is a sublist of the assembled rows). -/
theorem C7_dedup_keep_last (src : Table) (mapping : String → Option String)
    (mid dt : String) (k : String)
    (hk : k ∈ (assembledRows src mapping mid dt).map (keyOf STANDARD_HEADERS)) :
    (build_df_mapped src mapping mid dt).rows.countP
        (fun r => keyOf STANDARD_HEADERS r == k) = 1 ∧
    lookupRow STANDARD_HEADERS (build_df_mapped src mapping mid dt).rows k
      = (assembledRows src mapping mid dt).reverse.find?
          (fun r => keyOf STANDARD_HEADERS r == k) ∧
    (build_df_mapped src mapping mid dt).rows.Sublist
      (assembledRows src mapping mid dt) := by
  have hany : (assembledRows src mapping mid dt).any
      (fun r => keyOf STANDARD_HEADERS r == k) = true := by
    obtain ⟨r, hr, hkr⟩ := List.mem_map.mp hk
    exact List.any_eq_true.mpr ⟨r, hr, by rw [beq_iff_eq]; exact hkr⟩
  refine ⟨?_, ?_, ?_⟩
  · show (dedupKeepLast STANDARD_HEADERS (assembledRows src mapping mid dt)).countP
        (fun r => keyOf STANDARD_HEADERS r == k) = 1
    rw [dedup_countP, hany, if_pos rfl]
  · show lookupRow STANDARD_HEADERS
        (dedupKeepLast STANDARD_HEADERS (assembledRows src mapping mid dt)) k = _
    exact lookupRow_dedup _ _ _
  · exact dedupKeepLast_sublist _ _

theorem C7_dedup_keep_last_witness :
    (build_df_mapped srcW7 mapW7 "loc" "dt").rows.countP
        (fun r => keyOf STANDARD_HEADERS r == "K") = 1 ∧
    lookupRow STANDARD_HEADERS (build_df_mapped srcW7 mapW7 "loc" "dt").rows "K"
      = (assembledRows srcW7 mapW7 "loc" "dt").reverse.find?
          (fun r => keyOf STANDARD_HEADERS r == "K") :=
  ⟨(C7_dedup_keep_last srcW7 mapW7 "loc" "dt" "K" (by decide)).1,
   (C7_dedup_keep_last srcW7 mapW7 "loc" "dt" "K" (by decide)).2.1⟩

/-- C6 (amended): when at least one standardized key is new, the new-items
table carries the fixed 14-column schema and every row has Id "*",
RecordStatusId 1 and the literal "NULL" in ItemMaster_Id, AspNetUser_Id
and SupersededItemCode; but when no key is new, the returned table is a
completely empty frame with zero columns, not the 14-column schema. -/
theorem C6_new_items_schema_amended (m c u n : Table) (uc nc : Nat)
    (h : compare_and_build_exports m c = .ok (u, n, uc, nc)) :
    (nc ≠ 0 → n.cols = NEW_ITEM_HEADERS ∧
      ∀ r ∈ n.rows,
        getCell n.cols r "Id" = .str "*" ∧
        getCell n.cols r "RecordStatusId" = .nat 1 ∧
        getCell n.cols r "ItemMaster_Id" = .str "NULL" ∧
        getCell n.cols r "AspNetUser_Id" = .str "NULL" ∧
        getCell n.cols r "SupersededItemCode" = .str "NULL") ∧
    (nc = 0 → n = Table.mk [] []) := by
  obtain ⟨-, hn, -, hnc, -, -⟩ := compare_ok h
  subst hn
  subst hnc
  cases hempty : (newCodes m c).isEmpty with
  | true =>
    constructor
    · intro hne
      exact absurd (by rw [List.isEmpty_iff.mp hempty]; rfl) hne
    · intro _
      unfold newItemsTable
      rw [if_pos hempty]
  | false =>
    constructor
    · intro hne
      unfold newItemsTable
      rw [if_neg (by rw [hempty]; simp)]
      constructor
      · rfl
      · intro r hr
        simp only [Table.rows] at hr
        obtain ⟨r0, hr0, rfl⟩ := List.mem_map.mp hr
        refine ⟨?_, ?_, ?_, ?_, ?_⟩
        · rw [show (Table.mk NEW_ITEM_HEADERS ((newItemRows m c).map
              (fun r => NEW_ITEM_HEADERS.map (newItemCell m.cols r)))).cols
              = NEW_ITEM_HEADERS from rfl,
            getCell_map_cols (show colIdx NEW_ITEM_HEADERS "Id" = some 0 by decide)]
          rfl
        · rw [show (Table.mk NEW_ITEM_HEADERS ((newItemRows m c).map
              (fun r => NEW_ITEM_HEADERS.map (newItemCell m.cols r)))).cols
              = NEW_ITEM_HEADERS from rfl,
            getCell_map_cols (show colIdx NEW_ITEM_HEADERS "RecordStatusId" = some 8 by decide)]
          rfl
        · rw [show (Table.mk NEW_ITEM_HEADERS ((newItemRows m c).map
              (fun r => NEW_ITEM_HEADERS.map (newItemCell m.cols r)))).cols
              = NEW_ITEM_HEADERS from rfl,
            getCell_map_cols (show colIdx NEW_ITEM_HEADERS "ItemMaster_Id" = some 11 by decide)]
          rfl
        · rw [show (Table.mk NEW_ITEM_HEADERS ((newItemRows m c).map
              (fun r => NEW_ITEM_HEADERS.map (newItemCell m.cols r)))).cols
              = NEW_ITEM_HEADERS from rfl,
            getCell_map_cols (show colIdx NEW_ITEM_HEADERS "AspNetUser_Id" = some 12 by decide)]
          rfl
        · rw [show (Table.mk NEW_ITEM_HEADERS ((newItemRows m c).map
              (fun r => NEW_ITEM_HEADERS.map (newItemCell m.cols r)))).cols
              = NEW_ITEM_HEADERS from rfl,
            getCell_map_cols (show colIdx NEW_ITEM_HEADERS "SupersededItemCode" = some 13 by decide)]
          rfl
    · intro h0
      have hzero : newCodes m c = [] := List.length_eq_zero.mp h0
      rw [hzero] at hempty
      simp at hempty

theorem C6_new_items_schema_amended_witness :
    nW6.cols = NEW_ITEM_HEADERS ∧
    getCell nW6.cols rW6 "Id" = .str "*" ∧
    getCell nW6.cols rW6 "RecordStatusId" = .nat 1 ∧
    getCell nW6.cols rW6 "SupersededItemCode" = .str "NULL" :=
  ⟨((C6_new_items_schema_amended mW6 cW6
      (Table.mk ["ItemCode", "PurchasePrice", "SalesPrice"] []) nW6 0 1
      (by decide)).1 (by decide)).1,
   (((C6_new_items_schema_amended mW6 cW6
      (Table.mk ["ItemCode", "PurchasePrice", "SalesPrice"] []) nW6 0 1
      (by decide)).1 (by decide)).2 rW6 (by decide)).1,
   (((C6_new_items_schema_amended mW6 cW6
      (Table.mk ["ItemCode", "PurchasePrice", "SalesPrice"] []) nW6 0 1
      (by decide)).1 (by decide)).2 rW6 (by decide)).2.1,
   (((C6_new_items_schema_amended mW6 cW6
      (Table.mk ["ItemCode", "PurchasePrice", "SalesPrice"] []) nW6 0 1
      (by decide)).1 (by decide)).2 rW6 (by decide)).2.2.2.2⟩

/-- C6 is false as stated: with zero new keys the returned new-items table
is a bare empty frame whose column list is empty, not the fixed 14-column
schema the claim requires even for zero rows. -/
theorem C6_counterexample :
    compare_and_build_exports mX6 cX6
      = .ok (Table.mk ["ItemCode", "PurchasePrice", "SalesPrice"] [],
          Table.mk [] [], 0, 0) ∧
    (Table.mk ([] : List String) ([] : List Row)).cols ≠ NEW_ITEM_HEADERS :=
  ⟨by decide, by decide⟩

theorem numNe_self_of_isSome {x : Option Rat} (h : x.isSome = true) :
    numNe x x = false := by
  obtain ⟨v, rfl⟩ := Option.isSome_iff_exists.mp h
  show (v != v) = false
  exact bne_self_eq_false v

theorem normRows_length {c : Table} (hrect : c.Rect) {r : Row}
    (hr : r ∈ normRows c) : r.length = c.cols.length := by
  unfold normRows at hr
  obtain ⟨r0, hr0, rfl⟩ := List.mem_map.mp hr
  rw [normCode_length]
  exact hrect r0 hr0

theorem needsUpdate_eq_of_lookups {m c : Table} {k : String} {cr mr : Row}
    (hc : lookupRow c.cols (lookupOf c) k = some cr)
    (hm : lookupRow m.cols (lookupOf m) k = some mr) :
    needsUpdate m c k
      = (priceNe m c cr mr "PurchasePrice" || priceNe m c cr mr "SalesPrice") := by
  unfold needsUpdate
  rw [hc, hm]

theorem needsUpdate_updatedCatalog_false (m c : Table)
    (hrect : c.Rect) (hIC : "ItemCode" ∈ c.cols)
    (hPP : "PurchasePrice" ∈ c.cols) (hSP : "SalesPrice" ∈ c.cols)
    (hparse : mappedPricesParse m c = true)
    (k : String) (hkB : k ∈ bothCodes m c) :
    needsUpdate m (updatedCatalog m c) k = false := by
  have hkc : k ∈ keysOf c := (List.mem_filter.mp hkB).1
  have hkm : k ∈ keysOf m := by
    have h2 := (List.mem_filter.mp hkB).2
    simpa using h2
  obtain ⟨cr, hcr, hcrk⟩ := mem_keys_lookup hkc
  obtain ⟨mr, hmr, -⟩ := mem_keys_lookup hkm
  have hlu : lookupRow (updatedCatalog m c).cols (lookupOf (updatedCatalog m c)) k
      = some (normCode c.cols (reindexRow c.cols c.cols (updateRow m c cr))) := by
    rw [show (updatedCatalog m c).cols = c.cols from rfl,
      lookupRow_updatedCatalog m c hIC, hcr]
    rfl
  rw [needsUpdate_eq_of_lookups hlu hmr]
  have hcell : ∀ col, col ∈ c.cols → col ≠ "ItemCode" →
      getCell (updatedCatalog m c).cols
          (normCode c.cols (reindexRow c.cols c.cols (updateRow m c cr))) col
        = getCell c.cols (updateRow m c cr) col := by
    intro col hmem hne
    exact @getCell_G_ne m c cr col hmem hne
  by_cases hku : k ∈ codesToUpdate m c
  · have hcrlen : c.cols.length ≤ cr.length :=
      le_of_eq (normRows_length hrect (lookupRow_mem hcr)).symm
    have hin : (codesToUpdate m c).contains (keyOf c.cols cr) = true := by
      rw [hcrk]
      exact contains_of_mem hku
    have hl : lookupRow m.cols (lookupOf m) (keyOf c.cols cr) = some mr := by
      rw [hcrk]
      exact hmr
    obtain ⟨hppv, hspv⟩ := getCell_updateRow_prices hcrlen hin hl hPP hSP
    have hone : (match lookupRow m.cols (lookupOf m) k with
        | some mr =>
          (to_num (getCell m.cols mr "PurchasePrice").toText).isSome &&
          (to_num (getCell m.cols mr "SalesPrice").toText).isSome
        | none => true) = true := List.all_eq_true.mp hparse k hku
    rw [hmr] at hone
    have hone2 : ((to_num (getCell m.cols mr "PurchasePrice").toText).isSome &&
        (to_num (getCell m.cols mr "SalesPrice").toText).isSome) = true := hone
    rw [Bool.and_eq_true] at hone2
    obtain ⟨h1, h2⟩ := hone2
    have hppne : priceNe m (updatedCatalog m c)
        (normCode c.cols (reindexRow c.cols c.cols (updateRow m c cr))) mr
        "PurchasePrice" = false := by
      unfold priceNe
      rw [hcell "PurchasePrice" hPP (by decide), hppv]
      exact numNe_self_of_isSome h1
    have hspne : priceNe m (updatedCatalog m c)
        (normCode c.cols (reindexRow c.cols c.cols (updateRow m c cr))) mr
        "SalesPrice" = false := by
      unfold priceNe
      rw [hcell "SalesPrice" hSP (by decide), hspv]
      exact numNe_self_of_isSome h2
    rw [hppne, hspne]
    rfl
  · have hupd : updateRow m c cr = cr := updateRow_eq_self (by rw [hcrk]; exact hku)
    have hfalse : needsUpdate m c k = false := by
      cases hval : needsUpdate m c k with
      | false => rfl
      | true => exact absurd (List.mem_filter.mpr ⟨hkB, hval⟩) hku
    rw [needsUpdate_eq_of_lookups hcr hmr] at hfalse
    obtain ⟨hf1, hf2⟩ := Bool.or_eq_false_iff.mp hfalse
    have hppne : priceNe m (updatedCatalog m c)
        (normCode c.cols (reindexRow c.cols c.cols (updateRow m c cr))) mr
        "PurchasePrice" = false := by
      unfold priceNe at hf1 ⊢
      rw [hcell "PurchasePrice" hPP (by decide), hupd]
      exact hf1
    have hspne : priceNe m (updatedCatalog m c)
        (normCode c.cols (reindexRow c.cols c.cols (updateRow m c cr))) mr
        "SalesPrice" = false := by
      unfold priceNe at hf2 ⊢
      rw [hcell "SalesPrice" hSP (by decide), hupd]
      exact hf2
    rw [hppne, hspne]
    rfl

/-- C2 (amended): for a rectangular catalog, reconciling the updated
catalog returned by a first run against the same standardized table again
yields updatedCount = 0 provided every updated key's standardized
PurchasePrice and SalesPrice parse as numbers; newCount equals the first
run's newCount rather than 0, because new items are never merged into the
updated catalog. -/
theorem C2_idempotence_amended (m c u n : Table) (uc nc : Nat)
    (h : compare_and_build_exports m c = .ok (u, n, uc, nc))
    (hrect : c.Rect)
    (hparse : mappedPricesParse m c = true) :
    compare_and_build_exports m u
      = .ok (updatedCatalog m u, newItemsTable m u, 0, nc) := by
  obtain ⟨hu, -, -, hnc, hmiss, hmIC, hC⟩ := compare_ok h
  subst hu
  subst hnc
  obtain ⟨hIC, hPP, hSP⟩ := required_mem_of_missing_empty hmiss
  have keysEq : keysOf (updatedCatalog m c) = keysOf c := keysOf_updatedCatalog m c hIC
  have bothEq : bothCodes m (updatedCatalog m c) = bothCodes m c := by
    unfold bothCodes
    rw [keysEq]
  have newEq : newCodes m (updatedCatalog m c) = newCodes m c := by
    unfold newCodes
    rw [keysEq]
  have hcodes : codesToUpdate m (updatedCatalog m c) = [] := by
    unfold codesToUpdate
    rw [bothEq]
    apply List.filter_eq_nil_iff.mpr
    intro k hk
    rw [needsUpdate_updatedCatalog_false m c hrect hIC hPP hSP hparse k hk]
    simp
  have hmissU : (catalogMissing (updatedCatalog m c)).isEmpty = true := hmiss
  have hcond : ¬ ((bothCodes m (updatedCatalog m c)).isEmpty = false ∧
      (m.cols.contains "PurchasePrice" = false ∨
       m.cols.contains "SalesPrice" = false)) := by
    rw [bothEq]
    exact hC
  unfold compare_and_build_exports
  rw [if_pos hmissU, if_pos hmIC, if_neg hcond, hcodes, newEq]
  rfl

theorem C2_idempotence_amended_witness :
    compare_and_build_exports mW2 uW2
      = .ok (updatedCatalog mW2 uW2, newItemsTable mW2 uW2, 0, 0) :=
  C2_idempotence_amended mW2 cW2 uW2 (Table.mk [] []) 1 0 (by decide) (by decide)
    (by decide)

/-- C2 is false as stated: a first run yields the updated catalog uX2 with
one update (key "A", whose standardized price "abc" does not parse) and
one new item (key "B", which is not merged into the catalog); the second
run on uX2 against the same standardized table again reports
updatedCount = 1 and newCount = 1, not 0 and 0. -/
theorem C2_counterexample :
    compare_and_build_exports mX2 cX2 = .ok (uX2, nX2, 1, 1) ∧
    compare_and_build_exports mX2 uX2 = .ok (uX2, nX2, 1, 1) ∧
    (1 : Nat) ≠ 0 :=
  ⟨by decide, by decide, by decide⟩

